import Mathlib

set_option maxRecDepth 4000

/-!
Verification of kafkakit-prometheus-metricsfetcher (main.go).

This file shallowly embeds the program's data model and operations:

* Prometheus query results (`QueryResult`, `Sample`) and the two mappers
  `getBrokerFreeSpace` (main.go lines 86-104) and `getPartitionSizes`
  (main.go lines 106-133).  Go maps are embedded as association lists with
  position-preserving update (`mapSet`) and first-match lookup (`mapGet`);
  Go map indexing of an absent key yields the zero value, hence
  `labelValue` defaults to the empty string.  The float64 metric values are
  embedded as rationals; no arithmetic is performed on them by the program.
* The ZooKeeper write path `writeToZookeeper` (lines 200-255) and
  `processData` (lines 135-198), over a deterministic hierarchical store
  `ZStore` following the coordination-store interface of the spec (section 6:
  delete / getACL / create, each distinguishing "not found").  Each run also
  returns the list of store operations it performed, in order, so that
  ordering and frame properties can be stated.  The `zkConn.Delete(path, 0)`
  call is embedded as an unconditional delete (node versions are not
  modeled); `json.Marshal` of the two maps cannot fail for these types and
  the marshaled payloads are embedded as tagged `ZData` values.
* An oracle-based embedding `writeToZookeeperWith` of the same control flow,
  in which the four store calls return arbitrary prescribed results, so that
  behavior under arbitrary store failures and the benign "already exists"
  creation race can be stated.
* The chroot parsing of `main` (lines 277-283) and the dry-run rendering of
  `processData` (lines 148-185); `strconv.Atoi` with its ignored error is
  embedded by `goAtoi` (invalid syntax yields 0, out-of-range values are
  clamped to the int64 range, as in Go).  The humanized byte formatting of
  the report is not modeled; sizes are carried through unchanged, and the
  `sort.Slice` call is embedded as an insertion sort on the parsed
  partition number.
-/

/-- A Prometheus label set (model.Metric): a finite map from label name to
label value, embedded as an association list. -/
abbrev LabelSet := List (String × String)

/-- First-match lookup in an association list; the Go map read m[k]. -/
def mapGet {α : Type} (m : List (String × α)) (k : String) : Option α :=
  match m with
  | [] => none
  | (k', v) :: rest => if k' = k then some v else mapGet rest k

/-- Position-preserving update of an association list; the Go map write
m[k] = v (replaces the existing entry for k, otherwise appends). -/
def mapSet {α : Type} (m : List (String × α)) (k : String) (v : α) :
    List (String × α) :=
  match m with
  | [] => [(k, v)]
  | (k', v') :: rest =>
    if k' = k then (k, v) :: rest else (k', v') :: mapSet rest k v

/-- Reading a label from a sample's label set: Go `elem.Metric[name]`
yields the zero value (the empty string) when the label is absent. -/
def labelValue (m : LabelSet) (name : String) : String :=
  (mapGet m name).getD ""

/-- Whether a label name is present in a label set. -/
def hasLabel (m : LabelSet) (name : String) : Prop :=
  mapGet m name ≠ none

instance (m : LabelSet) (name : String) : Decidable (hasLabel m name) := by
  unfold hasLabel; infer_instance

/-- main.go lines 22-24: the per-broker free-space record. -/
structure brokerStorageFreeValue where
  StorageFree : Rat
deriving DecidableEq, Repr

/-- main.go line 25: broker ID to free-space record. -/
abbrev brokerStorageFree := List (String × brokerStorageFreeValue)

/-- main.go lines 27-29: the per-partition size record. -/
structure partitionSizeValue where
  Size : Rat
deriving DecidableEq, Repr

/-- main.go line 30: partition number (as string) to size record. -/
abbrev partitionSize := List (String × partitionSizeValue)

/-- main.go line 31: topic to partition map. -/
abbrev topicPartitionSize := List (String × partitionSize)

/-- A sample of an instant-query vector result (model.Sample): a label set
and a numeric value.  The timestamp is not consulted by the program and is
omitted. -/
structure Sample where
  metric : LabelSet
  value : Rat
deriving DecidableEq, Repr

/-- A Prometheus query result (model.Value): one of the shapes vector,
scalar, matrix, string, none.  Only the vector shape is consumed; the
payloads of the other shapes are irrelevant to the program and are kept
minimal. -/
inductive QueryResult where
  | vector (samples : List Sample)
  | scalar (v : Rat)
  | matrix
  | strval (s : String)
  | novalue
deriving DecidableEq, Repr

/-- main.go lines 86-104, getBrokerFreeSpace, restricted to its mapping of
an already-fetched query result (the query itself and its fatal error exit
at lines 89-92 are orchestration outside the mapper).  For a vector result,
each sample is stored under the raw value of its broker-ID label (the label
name is the flag flBrokerIDLabel); any other result shape yields the empty
map. -/
def getBrokerFreeSpace (flBrokerIDLabel : String) (result : QueryResult) :
    brokerStorageFree :=
  match result with
  | .vector elems =>
    elems.foldl (fun m elem =>
      mapSet m (labelValue elem.metric flBrokerIDLabel)
        ⟨elem.value⟩) []
  | _ => []

/-- main.go lines 106-133, getPartitionSizes, restricted to its mapping of
an already-fetched query result.  For a vector result, each sample is
stored under its "topic" and "partition" label values in a two-level map;
any other result shape yields the empty map. -/
def getPartitionSizes (result : QueryResult) : topicPartitionSize :=
  match result with
  | .vector elems =>
    elems.foldl (fun m elem =>
      let topic := labelValue elem.metric "topic"
      let partition := labelValue elem.metric "partition"
      let v := (mapGet m topic).getD []
      mapSet m topic (mapSet v partition ⟨elem.value⟩)) []
  | _ => []

/-- Two-level lookup in a `topicPartitionSize` map. -/
def mapGet2 (m : topicPartitionSize) (t p : String) :
    Option partitionSizeValue :=
  match mapGet m t with
  | none => none
  | some ps => mapGet ps p

/-- Modelled from the spec: the identifier-translation table of
`mapBrokerStorage` (spec sections 4.1 and 7), a feature absent from the
source code.  If a table is configured, each sample's raw broker-ID label
value is looked up in it and replaced by the mapped broker ID; a raw value
absent from the table is a TranslationMiss error surfaced to the caller,
and no partial map is produced. -/
def mapBrokerStorageSpec (idLabel : String)
    (table : Option (List (String × String))) (result : QueryResult) :
    Except String brokerStorageFree :=
  match result with
  | .vector elems =>
    elems.foldlM (fun m e =>
      let raw := labelValue e.metric idLabel
      match table with
      | none => .ok (mapSet m raw ⟨e.value⟩)
      | some t =>
        match mapGet t raw with
        | some bid => .ok (mapSet m bid ⟨e.value⟩)
        | none => .error ("TranslationMiss: " ++ raw)) []
  | _ => .ok []

/-! ### Association-map lemmas -/

theorem mapGet_mapSet {α : Type} (m : List (String × α)) (k k' : String)
    (v : α) :
    mapGet (mapSet m k v) k' = if k = k' then some v else mapGet m k' := by
  induction m with
  | nil =>
    by_cases h : k = k' <;> simp [mapSet, mapGet, h]
  | cons a rest ih =>
    obtain ⟨ka, va⟩ := a
    by_cases hk : ka = k
    · subst hk
      by_cases h : ka = k' <;> simp [mapSet, mapGet, h]
    · by_cases h : ka = k'
      · subst h
        simp [mapSet, mapGet, hk, Ne.symm hk]
      · simp [mapSet, mapGet, hk, h, ih]

theorem mapGet_mem {α : Type} {m : List (String × α)} {k : String} {v : α}
    (h : mapGet m k = some v) : (k, v) ∈ m := by
  induction m with
  | nil => simp [mapGet] at h
  | cons a rest ih =>
    obtain ⟨ka, va⟩ := a
    by_cases hk : ka = k
    · subst hk
      simp [mapGet] at h
      simp [h]
    · simp [mapGet, hk] at h
      exact List.mem_cons_of_mem _ (ih h)

theorem mapSet_mem {α : Type} {m : List (String × α)} {k : String} {v : α}
    {x : String × α} (h : x ∈ mapSet m k v) : x = (k, v) ∨ x ∈ m := by
  induction m with
  | nil => simp [mapSet] at h; simp [h]
  | cons a rest ih =>
    obtain ⟨ka, va⟩ := a
    by_cases hk : ka = k
    · subst hk
      simp [mapSet] at h
      rcases h with h | h
      · exact Or.inl h
      · exact Or.inr (List.mem_cons_of_mem _ h)
    · simp [mapSet, hk] at h
      rcases h with h | h
      · exact Or.inr (by simp [h])
      · rcases ih h with h' | h'
        · exact Or.inl h'
        · exact Or.inr (List.mem_cons_of_mem _ h')

theorem mapSet_keys_subset {α : Type} (m : List (String × α)) (k : String)
    (v : α) {x : String} (h : x ∈ (mapSet m k v).map Prod.fst) :
    x = k ∨ x ∈ m.map Prod.fst := by
  simp only [List.mem_map] at h
  obtain ⟨p, hp, hx⟩ := h
  rcases mapSet_mem hp with h' | h'
  · left; rw [← hx, h']
  · right; exact List.mem_map.mpr ⟨p, h', hx⟩

theorem mapSet_keys_nodup {α : Type} (m : List (String × α)) (k : String)
    (v : α) (h : (m.map Prod.fst).Nodup) :
    ((mapSet m k v).map Prod.fst).Nodup := by
  induction m with
  | nil => simp [mapSet]
  | cons a rest ih =>
    obtain ⟨ka, va⟩ := a
    simp only [List.map_cons, List.nodup_cons] at h
    by_cases hk : ka = k
    · subst hk
      simpa [mapSet] using h
    · simp only [mapSet, if_neg hk, List.map_cons, List.nodup_cons]
      refine ⟨fun hin => ?_, ih h.2⟩
      rcases mapSet_keys_subset rest k v hin with h' | h'
      · exact hk h'
      · exact h.1 h'

/-! ### Fold characterizations of the two mappers -/

/-- Whether a sample's broker-ID label reads as the key k. -/
def bidMatch (lbl k : String) (e : Sample) : Bool :=
  decide (labelValue e.metric lbl = k)

/-- Whether a sample's topic and partition labels read as the pair (t, p). -/
def tpMatch (t p : String) (e : Sample) : Bool :=
  decide (labelValue e.metric "topic" = t) &&
    decide (labelValue e.metric "partition" = p)

/-- The broker map built by the fold of getBrokerFreeSpace: a key holds the
value of the last sample of the vector whose broker-ID label reads as that
key, and otherwise whatever the accumulator held. -/
theorem broker_foldl (lbl : String) (elems : List Sample)
    (m : brokerStorageFree) (k : String) :
    mapGet (elems.foldl (fun m elem =>
        mapSet m (labelValue elem.metric lbl) ⟨elem.value⟩) m) k =
      match elems.reverse.find? (bidMatch lbl k) with
      | some e => some ⟨e.value⟩
      | none => mapGet m k := by
  induction elems generalizing m with
  | nil => simp
  | cons e es ih =>
    simp only [List.foldl_cons, List.reverse_cons, List.find?_append]
    rw [ih]
    rcases hfind : es.reverse.find? (bidMatch lbl k) with _ | e'
    · by_cases hl : labelValue e.metric lbl = k
      · simp [hfind, List.find?, bidMatch, hl, mapGet_mapSet]
      · simp [hfind, List.find?, bidMatch, hl, mapGet_mapSet, Ne.symm hl]
    · simp [hfind]

/-- One step of the getPartitionSizes fold. -/
theorem partition_step (m : topicPartitionSize) (e : Sample)
    (t p : String) :
    mapGet2 (mapSet m (labelValue e.metric "topic")
        (mapSet ((mapGet m (labelValue e.metric "topic")).getD [])
          (labelValue e.metric "partition") ⟨e.value⟩)) t p =
      if tpMatch t p e then some ⟨e.value⟩ else mapGet2 m t p := by
  unfold mapGet2 tpMatch
  rw [mapGet_mapSet]
  by_cases ht : labelValue e.metric "topic" = t
  · rw [if_pos ht]
    simp only [Option.getD_some]
    rw [mapGet_mapSet]
    by_cases hp : labelValue e.metric "partition" = p
    · simp [ht, hp]
    · rw [if_neg hp]
      have hb : (decide (labelValue e.metric "topic" = t) &&
          decide (labelValue e.metric "partition" = p)) = false := by
        simp [hp]
      rw [hb]
      simp only [Bool.false_eq_true, if_false]
      rw [ht]
      rcases h : mapGet m t with _ | ps <;> simp [h, mapGet]
  · rw [if_neg ht]
    have hb : (decide (labelValue e.metric "topic" = t) &&
        decide (labelValue e.metric "partition" = p)) = false := by
      simp [ht]
    rw [hb]
    simp

/-- The two-level map built by the fold of getPartitionSizes: a
(topic, partition) pair holds the value of the last sample of the vector
whose labels read as that pair, and otherwise whatever the accumulator
held. -/
theorem partition_foldl (elems : List Sample) (m : topicPartitionSize)
    (t p : String) :
    mapGet2 (elems.foldl (fun m elem =>
        mapSet m (labelValue elem.metric "topic")
          (mapSet ((mapGet m (labelValue elem.metric "topic")).getD [])
            (labelValue elem.metric "partition") ⟨elem.value⟩)) m) t p =
      match elems.reverse.find? (tpMatch t p) with
      | some e => some ⟨e.value⟩
      | none => mapGet2 m t p := by
  induction elems generalizing m with
  | nil => simp
  | cons e es ih =>
    simp only [List.foldl_cons, List.reverse_cons, List.find?_append]
    rw [ih]
    rcases hfind : es.reverse.find? (tpMatch t p) with _ | e'
    · rcases hm : tpMatch t p e with _ | _
      · simp [hfind, List.find?, hm, partition_step]
      · simp [hfind, List.find?, hm, partition_step]
    · simp [hfind]

/-- Fold invariant principle. -/
theorem foldl_inv {α β : Type} (P : β → Prop) (f : β → α → β)
    (l : List α) (b : β) (hb : P b) (hf : ∀ b a, P b → P (f b a)) :
    P (l.foldl f b) := by
  induction l generalizing b with
  | nil => exact hb
  | cons a l ih => exact ih _ (hf b a hb)

/-- The two-level map built by getPartitionSizes has no duplicate topic
keys, and no duplicate partition keys inside any topic. -/
theorem getPartitionSizes_nodup (result : QueryResult) :
    ((getPartitionSizes result).map Prod.fst).Nodup ∧
      ∀ x ∈ getPartitionSizes result, (x.2.map Prod.fst).Nodup := by
  cases result with
  | vector elems =>
    unfold getPartitionSizes
    refine foldl_inv
      (fun m : topicPartitionSize => (m.map Prod.fst).Nodup ∧
        ∀ x ∈ m, (x.2.map Prod.fst).Nodup) _ elems [] (by simp) ?_
    rintro m e ⟨ho, hi⟩
    dsimp only
    constructor
    · exact mapSet_keys_nodup _ _ _ ho
    · intro x hx
      rcases mapSet_mem hx with h | h
      · subst h
        apply mapSet_keys_nodup
        rcases hg : mapGet m (labelValue e.metric "topic") with _ | ps
        · simp [hg]
        · simpa [hg] using hi _ (mapGet_mem hg)
      · exact hi x h
  | scalar v => exact ⟨List.nodup_nil, by simp [getPartitionSizes]⟩
  | matrix => exact ⟨List.nodup_nil, by simp [getPartitionSizes]⟩
  | strval s => exact ⟨List.nodup_nil, by simp [getPartitionSizes]⟩
  | novalue => exact ⟨List.nodup_nil, by simp [getPartitionSizes]⟩

/-- Lookup characterization of getPartitionSizes on a vector result. -/
theorem getPartitionSizes_lookup (elems : List Sample) (t p : String) :
    mapGet2 (getPartitionSizes (.vector elems)) t p =
      match elems.reverse.find? (tpMatch t p) with
      | some e => some ⟨e.value⟩
      | none => none := by
  refine (partition_foldl elems [] t p).trans ?_
  rcases hf : elems.reverse.find? (tpMatch t p) with _ | e <;>
    simp [hf, mapGet2, mapGet]

/-- Lookup characterization of getBrokerFreeSpace on a vector result. -/
theorem getBrokerFreeSpace_lookup (lbl : String) (elems : List Sample)
    (k : String) :
    mapGet (getBrokerFreeSpace lbl (.vector elems)) k =
      match elems.reverse.find? (bidMatch lbl k) with
      | some e => some ⟨e.value⟩
      | none => none := by
  refine (broker_foldl lbl elems [] k).trans ?_
  rcases hf : elems.reverse.find? (bidMatch lbl k) with _ | e <;>
    simp [hf, mapGet]

/-! ### Claims about the two mappers -/

/-- C1 counterexample: with a configured translation table that does not
contain the sample's raw broker-ID label value "10.0.0.1", the
spec-modelled mapper fails with a TranslationMiss and produces no map, but
the program's getBrokerFreeSpace returns normally, keeping the sample under
its raw, untranslated label value: it neither fails nor drops the
sample. -/
theorem C1_counterexample :
    mapBrokerStorageSpec "broker_id" (some [("10.0.0.9", "1")])
        (.vector [⟨[("broker_id", "10.0.0.1")], 5⟩]) =
      .error "TranslationMiss: 10.0.0.1" ∧
    getBrokerFreeSpace "broker_id"
        (.vector [⟨[("broker_id", "10.0.0.1")], 5⟩]) =
      [("10.0.0.1", ⟨5⟩)] ∧
    mapGet (getBrokerFreeSpace "broker_id"
        (.vector [⟨[("broker_id", "10.0.0.1")], 5⟩])) "10.0.0.1" =
      some ⟨5⟩ :=
  ⟨rfl, by decide, by decide⟩

/-- C1 (amended): the code implements no identifier-translation table and
cannot fail.  Every key of the broker map holds the value of the LAST
sample whose raw broker-ID label value equals that key, and every sample of
the vector is represented under its raw label value (no sample is dropped,
silently or otherwise). -/
theorem C1_raw_label_keys (lbl : String) (elems : List Sample) (k : String) :
    (mapGet (getBrokerFreeSpace lbl (.vector elems)) k =
      match elems.reverse.find? (bidMatch lbl k) with
      | some e => some ⟨e.value⟩
      | none => none) ∧
    ∀ e ∈ elems,
      mapGet (getBrokerFreeSpace lbl (.vector elems))
        (labelValue e.metric lbl) ≠ none := by
  refine ⟨getBrokerFreeSpace_lookup lbl elems k, ?_⟩
  intro e he
  rw [getBrokerFreeSpace_lookup]
  rcases hf : elems.reverse.find? (bidMatch lbl (labelValue e.metric lbl))
      with _ | e'
  · rw [List.find?_eq_none] at hf
    exact absurd (by simp [bidMatch]) (hf e (by simpa using he))
  · simp

/-- C1 witness: the amended characterization at a concrete input. -/
theorem C1_witness :
    mapGet (getBrokerFreeSpace "broker_id"
        (.vector [⟨[("broker_id", "7")], 11⟩, ⟨[("broker_id", "7")], 13⟩]))
      "7" = some ⟨13⟩ := by
  have h := C1_raw_label_keys "broker_id"
    [⟨[("broker_id", "7")], 11⟩, ⟨[("broker_id", "7")], 13⟩] "7"
  exact h.1.trans (by decide)

/-- C3 counterexample: a vector with a single sample carrying neither the
"topic" nor the "partition" label.  The sample is NOT excluded: it is
stored under the empty-string topic and partition keys, and the output map
is not empty. -/
theorem C3_counterexample :
    mapGet2 (getPartitionSizes (.vector [⟨[], 42⟩])) "" "" =
      some ⟨42⟩ ∧
    getPartitionSizes (.vector [⟨[], 42⟩]) = [("", [("", ⟨42⟩)])] ∧
    getPartitionSizes (.vector [⟨[], 42⟩]) ≠ [] := by
  decide

/-- C3 (amended): a sample missing the "topic" or "partition" label is not
excluded and raises no error: the missing label reads as the empty string
and the sample is stored under the corresponding empty-string key, so every
sample of the vector - label-complete or not - yields an entry of the
output map. -/
theorem C3_missing_labels_kept (elems : List Sample) (e : Sample)
    (he : e ∈ elems) :
    mapGet2 (getPartitionSizes (.vector elems))
      (labelValue e.metric "topic") (labelValue e.metric "partition") ≠
      none := by
  rw [getPartitionSizes_lookup]
  rcases hf : elems.reverse.find?
      (tpMatch (labelValue e.metric "topic")
        (labelValue e.metric "partition")) with _ | e'
  · rw [List.find?_eq_none] at hf
    exact absurd (by simp [tpMatch]) (hf e (by simpa using he))
  · simp

/-- C3 witness: the amended claim at a concrete input (a sample with no
labels is kept under the empty-string keys). -/
theorem C3_witness :
    mapGet2 (getPartitionSizes
        (.vector [⟨[("topic", "t1"), ("partition", "0")], 1⟩, ⟨[], 9⟩]))
      "" "" ≠ none := by
  have h := C3_missing_labels_kept
    [⟨[("topic", "t1"), ("partition", "0")], 1⟩, ⟨[], 9⟩] ⟨[], 9⟩
    (by decide)
  exact h

/-- C6: for a vector result whose samples all carry both the "topic" and
"partition" labels, getPartitionSizes yields exactly one entry per distinct
(topic, partition) pair occurring in the result (no duplicate topic keys,
no duplicate partition keys within a topic, and an entry exists for a pair
iff a sample with that pair does), and the value stored for a pair is that
of the last sample of the result with that pair (silent overwrite). -/
theorem C6_last_sample_wins (elems : List Sample)
    (hall : ∀ e ∈ elems,
      hasLabel e.metric "topic" ∧ hasLabel e.metric "partition") :
    (((getPartitionSizes (.vector elems)).map Prod.fst).Nodup ∧
      ∀ x ∈ getPartitionSizes (.vector elems),
        (x.2.map Prod.fst).Nodup) ∧
    (∀ t p, mapGet2 (getPartitionSizes (.vector elems)) t p =
      match elems.reverse.find? (tpMatch t p) with
      | some e => some ⟨e.value⟩
      | none => none) ∧
    (∀ t p, mapGet2 (getPartitionSizes (.vector elems)) t p ≠ none ↔
      ∃ e ∈ elems, labelValue e.metric "topic" = t ∧
        labelValue e.metric "partition" = p) := by
  refine ⟨getPartitionSizes_nodup _,
    fun t p => getPartitionSizes_lookup elems t p, ?_⟩
  intro t p
  rw [getPartitionSizes_lookup]
  constructor
  · intro hne
    rcases hf : elems.reverse.find? (tpMatch t p) with _ | e
    · rw [hf] at hne; simp at hne
    · have hmem := List.mem_of_find?_eq_some hf
      have hpe := List.find?_some hf
      refine ⟨e, by simpa using hmem, ?_⟩
      simpa [tpMatch] using hpe
  · rintro ⟨e, he, h1, h2⟩
    rcases hf : elems.reverse.find? (tpMatch t p) with _ | e'
    · rw [List.find?_eq_none] at hf
      exact absurd (by simp [tpMatch, h1, h2]) (hf e (by simpa using he))
    · simp [hf]

/-- C6 witness: the spec section 8 scenario, two samples of topic t1 with
partitions 0 and 1 and values 100 and 200. -/
theorem C6_witness :
    mapGet2 (getPartitionSizes (.vector
        [⟨[("topic", "t1"), ("partition", "0")], 100⟩,
         ⟨[("topic", "t1"), ("partition", "1")], 200⟩])) "t1" "0" =
      some ⟨100⟩ ∧
    mapGet2 (getPartitionSizes (.vector
        [⟨[("topic", "t1"), ("partition", "0")], 100⟩,
         ⟨[("topic", "t1"), ("partition", "1")], 200⟩])) "t1" "1" =
      some ⟨200⟩ := by
  have h := C6_last_sample_wins
    [⟨[("topic", "t1"), ("partition", "0")], 100⟩,
     ⟨[("topic", "t1"), ("partition", "1")], 200⟩] (by decide)
  exact ⟨(h.2.1 "t1" "0").trans (by decide),
    (h.2.1 "t1" "1").trans (by decide)⟩

/-- C8: a query result that is not vector-shaped yields the empty map from
both mappers; no error is possible (both mappers are total). -/
theorem C8_nonvector_empty (lbl : String) (r : QueryResult)
    (h : ∀ elems, r ≠ .vector elems) :
    getBrokerFreeSpace lbl r = [] ∧ getPartitionSizes r = [] := by
  cases r with
  | vector elems => exact absurd rfl (h elems)
  | scalar v => exact ⟨rfl, rfl⟩
  | matrix => exact ⟨rfl, rfl⟩
  | strval s => exact ⟨rfl, rfl⟩
  | novalue => exact ⟨rfl, rfl⟩

/-- C8 witness: a scalar result yields empty maps. -/
theorem C8_witness :
    getBrokerFreeSpace "broker_id" (.scalar 3) = [] ∧
      getPartitionSizes (.scalar 3) = [] :=
  C8_nonvector_empty "broker_id" (.scalar 3)
    (fun elems h => QueryResult.noConfusion h)

/-- C10: a sample whose broker-ID label is missing reads as the empty
string (the code cannot distinguish an absent label from one explicitly
set to the empty string), and getBrokerFreeSpace neither skips it nor
errors: its value is stored under the empty-string key, and among all
samples reading as the empty string the last one of the vector wins. -/
theorem C10_empty_key_last_wins (lbl : String) (elems : List Sample)
    (h : ∃ e ∈ elems, ¬ hasLabel e.metric lbl) :
    (mapGet (getBrokerFreeSpace lbl (.vector elems)) "" =
      match elems.reverse.find? (bidMatch lbl "") with
      | some e => some ⟨e.value⟩
      | none => none) ∧
    mapGet (getBrokerFreeSpace lbl (.vector elems)) "" ≠ none := by
  refine ⟨getBrokerFreeSpace_lookup lbl elems "", ?_⟩
  obtain ⟨e, he, hlab⟩ := h
  have hval : labelValue e.metric lbl = "" := by
    unfold hasLabel at hlab
    unfold labelValue
    rcases hg : mapGet e.metric lbl with _ | v
    · rfl
    · exact absurd (by simp [hg]) hlab
  rw [getBrokerFreeSpace_lookup]
  rcases hf : elems.reverse.find? (bidMatch lbl "") with _ | e'
  · rw [List.find?_eq_none] at hf
    exact absurd (by simp [bidMatch, hval]) (hf e (by simpa using he))
  · simp

/-- C10 witness: two samples without the broker-ID label; the last one's
value is stored under the empty-string key. -/
theorem C10_witness :
    mapGet (getBrokerFreeSpace "broker_id"
        (.vector [⟨[("other", "x")], 3⟩, ⟨[], 4⟩])) "" = some ⟨4⟩ := by
  have h := C10_empty_key_last_wins "broker_id"
    [⟨[("other", "x")], 3⟩, ⟨[], 4⟩] ⟨⟨[], 4⟩, by decide⟩
  exact h.1.trans (by decide)

/-! ### The coordination store and the write path -/

/-- A ZooKeeper ACL entry (zk.ACL): permission bitmask, scheme, id. -/
structure ACL where
  Perms : Nat
  Scheme : String
  ID : String
deriving DecidableEq, Repr

/-- zk.PermAll = PermRead|PermWrite|PermCreate|PermDelete|PermAdmin = 31. -/
def PermAll : Nat := 31

/-- zk.WorldACL(p): a single entry granting p to scheme "world", id
"anyone". -/
def worldACL (p : Nat) : List ACL := [⟨p, "world", "anyone"⟩]

/-- The payload of a store node.  JSON byte encodings are embedded as
tagged values: json.Marshal cannot fail for the two map types, and its
exact byte encoding is irrelevant to the claims proved here.  `nodata`
embeds the nil payload used when creating the directory node; `bytes`
stands for arbitrary pre-existing content. -/
inductive ZData where
  | nodata
  | pmeta (m : topicPartitionSize)
  | bmetrics (m : brokerStorageFree)
  | bytes (s : String)
deriving DecidableEq, Repr

/-- A store node: payload plus ACL list. -/
structure ZNode where
  data : ZData
  acl : List ACL
deriving DecidableEq, Repr

/-- The hierarchical store, as a partial map from paths to nodes (spec
section 6; only the operations the program uses are modeled). -/
def ZStore : Type := String → Option ZNode

/-- Errors of the store client that the program distinguishes
(zk.ErrNoNode, zk.ErrNodeExists); `other` stands for any further client
error. -/
inductive ZkErr where
  | noNode
  | nodeExists
  | other (msg : String)
deriving DecidableEq, Repr

/-- A store operation, recorded in the order performed. -/
inductive ZkOp where
  | delete (p : String)
  | getACL (p : String)
  | create (p : String)
deriving DecidableEq, Repr

/-- The path an operation touches. -/
def ZkOp.path : ZkOp → String
  | .delete p => p
  | .getACL p => p
  | .create p => p

/-- zkConn.Delete(path, 0): removes the node if present, else ErrNoNode.
The version argument is always 0 in the program and version checking by
the store is not modeled. -/
def zkDelete (p : String) (s : ZStore) : Except ZkErr Unit × ZStore :=
  match s p with
  | none => (.error .noNode, s)
  | some _ => (.ok (), fun q => if q = p then none else s q)

/-- zkConn.GetACL(path): the node's ACL list, or ErrNoNode. -/
def zkGetACL (p : String) (s : ZStore) :
    Except ZkErr (List ACL) × ZStore :=
  match s p with
  | none => (.error .noNode, s)
  | some n => (.ok n.acl, s)

/-- zkConn.Create(path, data, 0, acl): creates the node, or ErrNodeExists
if it is already present. -/
def zkCreate (p : String) (d : ZData) (acl : List ACL) (s : ZStore) :
    Except ZkErr Unit × ZStore :=
  match s p with
  | some _ => (.error .nodeExists, s)
  | none => (.ok (), fun q => if q = p then some ⟨d, acl⟩ else s q)

/-- The five fmt.Errorf sites of writeToZookeeper (main.go lines 217, 226,
229, 242, 251). -/
inductive WriteErr where
  | unableToDelete (path : String) (e : ZkErr)
  | unableToCreateNode (dir : String) (e : ZkErr)
  | unableToGetACL (dir : String) (e : ZkErr)
  | wrongACL (dir : String) (acl : List ACL)
  | unableToCreatePath (path : String) (e : ZkErr)
deriving DecidableEq, Repr

/-- main.go lines 200-212: the destination directory path, the root
/topicmappr prefixed by the chroot when one is configured. -/
def dirPath (zkChroot : String) : String :=
  if zkChroot ≠ "" then zkChroot ++ "/topicmappr" else "/topicmappr"

/-- main.go line 212: the data node path, directory + "/" + node name. -/
def dataPath (zkChroot name : String) : String :=
  dirPath zkChroot ++ "/" ++ name

/-- The Go equality test a == wacl of main.go lines 234-240: whether the
ACL list contains an entry exactly equal to zk.WorldACL(zk.PermAll)[0]. -/
def hasOpenACL (acl : List ACL) : Bool :=
  acl.any (fun a => decide (a = ⟨PermAll, "world", "anyone"⟩))

/-- main.go lines 246-254: create the data node with the serialized
payload and the open ACL; any creation failure aborts. -/
def wzkCreateData (path : String) (data : ZData) (s : ZStore) :
    Except WriteErr Unit × ZStore × List ZkOp :=
  match zkCreate path data (worldACL PermAll) s with
  | (.error e, s') => (.error (.unableToCreatePath path e), s', [.create path])
  | (.ok _, s') => (.ok (), s', [.create path])

/-- main.go lines 220-244: fetch the directory ACL; on ErrNoNode create the
directory with the open ACL (ErrNodeExists benign, other failures abort);
on success require an entry exactly equal to the open ACL, aborting with
the wrong-ACL error otherwise; then create the data node. -/
def wzkEnsureDirAndCreate (dir path : String) (data : ZData) (s : ZStore) :
    Except WriteErr Unit × ZStore × List ZkOp :=
  match zkGetACL dir s with
  | (.error e, s1) =>
    if e = ZkErr.noNode then
      match zkCreate dir .nodata (worldACL PermAll) s1 with
      | (.error e2, s2) =>
        if e2 ≠ ZkErr.nodeExists then
          (.error (.unableToCreateNode dir e2), s2,
            [.getACL dir, .create dir])
        else
          match wzkCreateData path data s2 with
          | (r, s3, t) => (r, s3, [.getACL dir, .create dir] ++ t)
      | (.ok _, s2) =>
        match wzkCreateData path data s2 with
        | (r, s3, t) => (r, s3, [.getACL dir, .create dir] ++ t)
    else (.error (.unableToGetACL dir e), s1, [.getACL dir])
  | (.ok acl, s1) =>
    if hasOpenACL acl then
      match wzkCreateData path data s1 with
      | (r, s2, t) => (r, s2, .getACL dir :: t)
    else (.error (.wrongACL dir acl), s1, [.getACL dir])

/-- main.go lines 200-255, writeToZookeeper: compute the paths, delete the
old data node (ErrNoNode tolerated, other failures abort), then ensure the
directory and create the data node.  Besides the result and the final
store, the list of store operations performed is returned, in order. -/
def writeToZookeeper (zkChroot name : String) (data : ZData) (s : ZStore) :
    Except WriteErr Unit × ZStore × List ZkOp :=
  match zkDelete (dataPath zkChroot name) s with
  | (.error e, s1) =>
    if e ≠ ZkErr.noNode then
      (.error (.unableToDelete (dataPath zkChroot name) e), s1,
        [.delete (dataPath zkChroot name)])
    else
      match wzkEnsureDirAndCreate (dirPath zkChroot)
          (dataPath zkChroot name) data s1 with
      | (r, s2, t) => (r, s2, .delete (dataPath zkChroot name) :: t)
  | (.ok _, s1) =>
    match wzkEnsureDirAndCreate (dirPath zkChroot)
        (dataPath zkChroot name) data s1 with
    | (r, s2, t) => (r, s2, .delete (dataPath zkChroot name) :: t)

/-! ### Dry-run rendering and chroot parsing -/

/-- One decimal digit, else none. -/
def decDigit? (c : Char) : Option Nat :=
  if '0' ≤ c ∧ c ≤ '9' then some (c.toNat - '0'.toNat) else none

/-- Accumulate decimal digits; any non-digit poisons the parse. -/
def digitsValAux : Option Nat → List Char → Option Nat
  | acc, [] => acc
  | acc, c :: cs =>
    match acc, decDigit? c with
    | some n, some d => digitsValAux (some (10 * n + d)) cs
    | _, _ => none

/-- The value of a nonempty all-digit string, else none. -/
def digitsVal? (cs : List Char) : Option Nat :=
  match cs with
  | [] => none
  | _ => digitsValAux (some 0) cs

/-- strconv.Atoi with its error ignored, as in main.go line 164
(p, _ := strconv.Atoi(partition)): an optional sign followed by one or
more decimal digits parses to its value clamped to the int64 range (Go
returns the clamped limit together with ErrRange, and the error is
dropped); any syntactically invalid string parses to 0. -/
def goAtoi (s : String) : Int :=
  let (neg, ds) :=
    match s.toList with
    | '+' :: r => (false, r)
    | '-' :: r => (true, r)
    | r => (false, r)
  match digitsVal? ds with
  | none => 0
  | some n =>
    let v : Int := if neg then -(n : Int) else (n : Int)
    if v > 9223372036854775807 then 9223372036854775807
    else if v < -9223372036854775808 then -9223372036854775808
    else v

/-- main.go lines 156-159: the el struct of the dry-run report.  The Size
field is uint64(obj.Size) in the source; the display conversion and the
humanized byte formatting are not modeled, the size is carried through
unchanged. -/
structure ReportEl where
  Partition : Int
  Size : Rat
deriving DecidableEq, Repr

/-- main.go lines 161-170: one report entry per partition of the topic. -/
def reportEntries (ps : partitionSize) : List ReportEl :=
  ps.map (fun pv => ⟨goAtoi pv.1, pv.2.Size⟩)

/-- Insert into a list sorted by ascending Partition. -/
def insertEl (e : ReportEl) : List ReportEl → List ReportEl
  | [] => [e]
  | x :: xs =>
    if e.Partition < x.Partition then e :: x :: xs else x :: insertEl e xs

/-- main.go lines 172-174: sort.Slice(entries, by ascending Partition),
embedded as an insertion sort. -/
def sortEls (l : List ReportEl) : List ReportEl := l.foldr insertEl []

/-- main.go lines 150-185: the dry-run report.  Per topic, the partition
entries sorted by ascending parsed partition number; then the brokers with
their free-space values, in iteration order. -/
def dryRunReport (pm : topicPartitionSize) (bm : brokerStorageFree) :
    List (String × List ReportEl) × List (String × Rat) :=
  (pm.map (fun tv => (tv.1, sortEls (reportEntries tv.2))),
   bm.map (fun bv => (bv.1, bv.2.StorageFree)))

/-- main.go lines 135-198, processData: in dry-run mode only render the
report (no store operation); otherwise write partitionmeta then
brokermetrics, failing fast on the first error.  The report, when one is
rendered, is returned in place of the log output. -/
def processData (flDryRun : Bool) (zkChroot : String)
    (brokerMetrics : brokerStorageFree)
    (partitionMapping : topicPartitionSize) (s : ZStore) :
    Except WriteErr
      (Option (List (String × List ReportEl) × List (String × Rat))) ×
      ZStore × List ZkOp :=
  if flDryRun then
    (.ok (some (dryRunReport partitionMapping brokerMetrics)), s, [])
  else
    match writeToZookeeper zkChroot "partitionmeta"
        (.pmeta partitionMapping) s with
    | (.error e, s1, t1) => (.error e, s1, t1)
    | (.ok _, s1, t1) =>
      match writeToZookeeper zkChroot "brokermetrics"
          (.bmetrics brokerMetrics) s1 with
      | (.error e, s2, t2) => (.error e, s2, t1 ++ t2)
      | (.ok _, s2, t2) => (.ok none, s2, t1 ++ t2)

/-- main.go lines 277-283: the chroot is the portion of the --zk-addr
value from its first '/' onward (empty when the address has no '/');
strings.IndexByte finds the first '/' byte, which for UTF-8 text is the
first '/' character. -/
def zkChrootOf (flZkAddr : String) : String :=
  String.mk (flZkAddr.toList.dropWhile (fun c => c ≠ '/'))

/-- main.go lines 277-283: the host part of --zk-addr, up to the first
'/'. -/
def zkAddrHostOf (flZkAddr : String) : String :=
  String.mk (flZkAddr.toList.takeWhile (fun c => c ≠ '/'))

/-! ### String path lemmas -/

theorem string_ne_append (a b : String) (h : b ≠ "") : a ≠ a ++ b := by
  intro he
  have hl := congrArg String.length he
  rw [String.length_append] at hl
  have hb : b.length = 0 := by omega
  have hdata : b.data = [] := List.length_eq_zero.mp hb
  exact h (String.ext hdata)

theorem string_append_cancel {a b c : String} (h : a ++ b = a ++ c) :
    b = c := by
  apply String.ext
  have hd := congrArg String.data h
  rw [String.data_append, String.data_append] at hd
  exact List.append_cancel_left hd

theorem dataPath_eq_assoc (c n : String) :
    dataPath c n = dirPath c ++ ("/" ++ n) := by
  unfold dataPath
  rw [String.append_assoc]

theorem dirPath_ne_dataPath (c n : String) : dirPath c ≠ dataPath c n := by
  rw [dataPath_eq_assoc]
  apply string_ne_append
  intro h
  have hl := congrArg String.length h
  rw [String.length_append] at hl
  have h1 : ("/" : String).length = 1 := rfl
  have h0 : ("" : String).length = 0 := rfl
  omega

theorem dataPath_name_inj (c : String) {n1 n2 : String}
    (h : dataPath c n1 = dataPath c n2) : n1 = n2 := by
  rw [dataPath_eq_assoc, dataPath_eq_assoc] at h
  have h2 := string_append_cancel h
  exact string_append_cancel h2

theorem pm_ne_bm (c : String) :
    dataPath c "partitionmeta" ≠ dataPath c "brokermetrics" := by
  intro h
  have := dataPath_name_inj c h
  simp at this

/-- dropWhile at the first failing element equals drop at its index. -/
theorem dropWhile_eq_drop_findIdx {α : Type} (p : α → Bool) (l : List α) :
    l.dropWhile p = l.drop (l.findIdx (fun c => !(p c))) := by
  induction l with
  | nil => rfl
  | cons a l ih =>
    rcases hp : p a with _ | _
    · simp [List.dropWhile_cons, List.findIdx_cons, hp]
    · simp [List.dropWhile_cons, List.findIdx_cons, hp, ih]

/-- C7: the destination directory path is the chroot segment (the portion
of the coordination-store address from its first '/' onward) concatenated
with "/topicmappr" when the address carries a chroot, and "/topicmappr"
otherwise; the data node path is the directory path + "/" + the node name;
and with chroot "/my-chroot" the partitionmeta data node path is
"/my-chroot/topicmappr/partitionmeta". -/
theorem C7_path_construction (addr name : String) :
    (dataPath (zkChrootOf addr) name =
      dirPath (zkChrootOf addr) ++ "/" ++ name) ∧
    ('/' ∈ addr.toList →
      zkChrootOf addr =
        String.mk (addr.toList.drop
          (addr.toList.findIdx (fun c => c = '/'))) ∧
      dirPath (zkChrootOf addr) = zkChrootOf addr ++ "/topicmappr") ∧
    ('/' ∉ addr.toList → dirPath (zkChrootOf addr) = "/topicmappr") ∧
    dataPath (zkChrootOf "zookeeper:2181/my-chroot") "partitionmeta" =
      "/my-chroot/topicmappr/partitionmeta" := by
  refine ⟨rfl, ?_, ?_, by decide⟩
  · intro hmem
    have hfn : (fun c : Char => !(decide (c ≠ '/'))) =
        (fun c : Char => decide (c = '/')) := by
      funext c
      by_cases h : c = '/' <;> simp [h]
    constructor
    · unfold zkChrootOf
      rw [dropWhile_eq_drop_findIdx, hfn]
    · have hne : zkChrootOf addr ≠ "" := by
        unfold zkChrootOf
        intro h
        have hd : (addr.toList.dropWhile (fun c => c ≠ '/')) = [] :=
          congrArg String.data h
        rw [List.dropWhile_eq_nil_iff] at hd
        have := hd '/' hmem
        simp at this
      unfold dirPath
      rw [if_pos hne]
  · intro hmem
    have hz : zkChrootOf addr = "" := by
      unfold zkChrootOf
      apply String.ext
      show addr.toList.dropWhile (fun c => c ≠ '/') = []
      rw [List.dropWhile_eq_nil_iff]
      intro x hx
      simp only [decide_eq_true_eq]
      intro hxe
      exact hmem (hxe ▸ hx)
    rw [hz]
    rfl

/-- C7 witness: path construction at concrete addresses, with and without
a chroot. -/
theorem C7_witness :
    dirPath (zkChrootOf "zookeeper:2181/my-chroot") =
      zkChrootOf "zookeeper:2181/my-chroot" ++ "/topicmappr" ∧
    dirPath (zkChrootOf "zookeeper:2181") = "/topicmappr" ∧
    dataPath (zkChrootOf "zookeeper:2181/my-chroot") "partitionmeta" =
      "/my-chroot/topicmappr/partitionmeta" :=
  ⟨((C7_path_construction "zookeeper:2181/my-chroot" "partitionmeta").2.1
      (by decide)).2,
   (C7_path_construction "zookeeper:2181" "partitionmeta").2.2.1 (by decide),
   (C7_path_construction "zookeeper:2181/my-chroot" "partitionmeta").2.2.2⟩

/-! ### ACL-mismatch behavior of the write path -/

instance {ε α : Type} [DecidableEq ε] [DecidableEq α] :
    DecidableEq (Except ε α) := fun a b =>
  match a, b with
  | .error e1, .error e2 =>
    if h : e1 = e2 then .isTrue (by rw [h])
    else .isFalse (fun he => by injection he with h2; exact h h2)
  | .ok v1, .ok v2 =>
    if h : v1 = v2 then .isTrue (by rw [h])
    else .isFalse (fun he => by injection he with h2; exact h h2)
  | .error _, .ok _ => .isFalse (fun he => Except.noConfusion he)
  | .ok _, .error _ => .isFalse (fun he => Except.noConfusion he)

/-- If the directory node exists with an ACL list containing no open-ACL
entry, writeToZookeeper deletes the old data node, reads the directory
ACL, and aborts with the wrong-ACL error; the final store is the initial
one with the data node removed. -/
theorem wz_badACL (c n : String) (d : ZData) (s : ZStore) (dn : ZNode)
    (hdir : s (dirPath c) = some dn) (hacl : hasOpenACL dn.acl = false) :
    writeToZookeeper c n d s =
      (.error (.wrongACL (dirPath c) dn.acl),
       (fun q => if q = dataPath c n then none else s q),
       [.delete (dataPath c n), .getACL (dirPath c)]) := by
  have hne : dirPath c ≠ dataPath c n := dirPath_ne_dataPath c n
  unfold writeToZookeeper
  rcases hsp : s (dataPath c n) with _ | nd
  · have hst : (fun q => if q = dataPath c n then none else s q) = s := by
      funext q
      by_cases h : q = dataPath c n
      · rw [if_pos h, h, hsp]
      · rw [if_neg h]
    rw [hst]
    simp only [zkDelete, hsp]
    simp only [wzkEnsureDirAndCreate, zkGetACL, hdir, hacl]
    simp
  · simp only [zkDelete, hsp]
    simp only [wzkEnsureDirAndCreate, zkGetACL, if_neg hne, hdir, hacl]
    simp

/-- C2 (amended): when the directory node exists with an ACL list
containing no open-ACL entry, a live publish fails with the wrong-ACL
error and the brokermetrics node (and every other node except the
partitionmeta data node, the directory included) is unmodified; the
partitionmeta data node, however, has already been deleted by the
delete-then-check sequence and is left absent, losing its prior
content. -/
theorem C2_acl_mismatch_frame (c : String) (bm : brokerStorageFree)
    (pm : topicPartitionSize) (s : ZStore) (dn : ZNode)
    (hdir : s (dirPath c) = some dn) (hacl : hasOpenACL dn.acl = false) :
    (processData false c bm pm s).1 =
      .error (.wrongACL (dirPath c) dn.acl) ∧
    (processData false c bm pm s).2.1 (dataPath c "partitionmeta") =
      none ∧
    (processData false c bm pm s).2.1 (dataPath c "brokermetrics") =
      s (dataPath c "brokermetrics") ∧
    (processData false c bm pm s).2.1 (dirPath c) = some dn ∧
    ∀ q, q ≠ dataPath c "partitionmeta" →
      (processData false c bm pm s).2.1 q = s q := by
  have hw := wz_badACL c "partitionmeta" (.pmeta pm) s dn hdir hacl
  unfold processData
  rw [if_neg (by simp)]
  rw [hw]
  refine ⟨rfl, by simp, ?_, ?_, ?_⟩
  · have hne : dataPath c "brokermetrics" ≠ dataPath c "partitionmeta" :=
      fun h => pm_ne_bm c h.symm
    simp [hne]
  · simp [dirPath_ne_dataPath c "partitionmeta", hdir]
  · intro q hq
    simp [hq]

/-- C2 counterexample: a store whose directory /topicmappr has a non-open
ACL (perms 1 only) while both data nodes exist.  The publish does fail
with the wrong-ACL error, but the partitionmeta data node does NOT keep
its prior content and existence: it held bytes "oldpm" before the call and
is absent afterwards. -/
theorem C2_counterexample :
    ((processData false "" []
        [("t1", [("0", ⟨100⟩)])]
        (fun p =>
          if p = "/topicmappr" then
            some ⟨.nodata, [⟨1, "world", "anyone"⟩]⟩
          else if p = "/topicmappr/partitionmeta" then
            some ⟨.bytes "oldpm", worldACL PermAll⟩
          else if p = "/topicmappr/brokermetrics" then
            some ⟨.bytes "oldbm", worldACL PermAll⟩
          else none)).1 =
      .error (.wrongACL "/topicmappr" [⟨1, "world", "anyone"⟩])) ∧
    ((fun p =>
        if p = "/topicmappr" then
          some ⟨.nodata, [⟨1, "world", "anyone"⟩]⟩
        else if p = "/topicmappr/partitionmeta" then
          some ⟨.bytes "oldpm", worldACL PermAll⟩
        else if p = "/topicmappr/brokermetrics" then
          some ⟨.bytes "oldbm", worldACL PermAll⟩
        else none : ZStore) "/topicmappr/partitionmeta" =
      some ⟨.bytes "oldpm", worldACL PermAll⟩) ∧
    ((processData false "" []
        [("t1", [("0", ⟨100⟩)])]
        (fun p =>
          if p = "/topicmappr" then
            some ⟨.nodata, [⟨1, "world", "anyone"⟩]⟩
          else if p = "/topicmappr/partitionmeta" then
            some ⟨.bytes "oldpm", worldACL PermAll⟩
          else if p = "/topicmappr/brokermetrics" then
            some ⟨.bytes "oldbm", worldACL PermAll⟩
          else none)).2.1 "/topicmappr/partitionmeta" = none) := by
  refine ⟨by decide, by decide, by decide⟩

/-- C2 witness: the amended claim at a concrete store with a chroot. -/
theorem C2_witness :
    ((processData false "/my" [] []
        (fun p =>
          if p = "/my/topicmappr" then
            some ⟨.nodata, [⟨21, "world", "anyone"⟩]⟩
          else if p = "/my/topicmappr/brokermetrics" then
            some ⟨.bytes "keep", worldACL PermAll⟩
          else none)).1 =
      .error (.wrongACL "/my/topicmappr" [⟨21, "world", "anyone"⟩])) ∧
    ((processData false "/my" [] []
        (fun p =>
          if p = "/my/topicmappr" then
            some ⟨.nodata, [⟨21, "world", "anyone"⟩]⟩
          else if p = "/my/topicmappr/brokermetrics" then
            some ⟨.bytes "keep", worldACL PermAll⟩
          else none)).2.1 "/my/topicmappr/brokermetrics" =
      some ⟨.bytes "keep", worldACL PermAll⟩) := by
  have h := C2_acl_mismatch_frame "/my" [] []
    (fun p =>
      if p = "/my/topicmappr" then
        some ⟨.nodata, [⟨21, "world", "anyone"⟩]⟩
      else if p = "/my/topicmappr/brokermetrics" then
        some ⟨.bytes "keep", worldACL PermAll⟩
      else none)
    ⟨.nodata, [⟨21, "world", "anyone"⟩]⟩ (by decide) (by decide)
  exact ⟨h.1, (h.2.2.1).trans (by decide)⟩

/-! ### Operation traces of the write path -/

theorem wzkCreateData_ops (p : String) (d : ZData) (s : ZStore) :
    (wzkCreateData p d s).2.2 = [.create p] := by
  unfold wzkCreateData
  rcases h : zkCreate p d (worldACL PermAll) s with ⟨r, s'⟩
  rcases r with e | u <;> simp [h]

theorem wzkEnsure_ops (dir path : String) (d : ZData) (s : ZStore)
    (r : Except WriteErr Unit) (s' : ZStore) (t : List ZkOp)
    (heq : wzkEnsureDirAndCreate dir path d s = (r, s', t)) :
    ∀ op ∈ t, op.path = dir ∨ op.path = path := by
  unfold wzkEnsureDirAndCreate at heq
  rcases hg : zkGetACL dir s with ⟨rg, s1⟩
  rw [hg] at heq
  rcases rg with eg | acl
  · dsimp only at heq
    by_cases he : eg = ZkErr.noNode
    · rw [if_pos he] at heq
      rcases hc : zkCreate dir .nodata (worldACL PermAll) s1 with ⟨rc, s2⟩
      rw [hc] at heq
      rcases rc with ec | uc
      · dsimp only at heq
        by_cases hee : ec = ZkErr.nodeExists
        · rw [if_neg (fun hh => hh hee)] at heq
          rw [wzkCreateData_ops] at heq
          injection heq with h1 h23
          injection h23 with h2 h3
          subst h3
          intro op hop
          simp at hop
          rcases hop with rfl | rfl | rfl
          · exact Or.inl rfl
          · exact Or.inl rfl
          · exact Or.inr rfl
        · rw [if_pos hee] at heq
          injection heq with h1 h23
          injection h23 with h2 h3
          subst h3
          intro op hop
          simp at hop
          rcases hop with rfl | rfl
          · exact Or.inl rfl
          · exact Or.inl rfl
      · dsimp only at heq
        rw [wzkCreateData_ops] at heq
        injection heq with h1 h23
        injection h23 with h2 h3
        subst h3
        intro op hop
        simp at hop
        rcases hop with rfl | rfl | rfl
        · exact Or.inl rfl
        · exact Or.inl rfl
        · exact Or.inr rfl
    · rw [if_neg he] at heq
      injection heq with h1 h23
      injection h23 with h2 h3
      subst h3
      intro op hop
      simp at hop
      subst hop
      exact Or.inl rfl
  · dsimp only at heq
    by_cases ha : hasOpenACL acl
    · rw [if_pos ha] at heq
      rw [wzkCreateData_ops] at heq
      injection heq with h1 h23
      injection h23 with h2 h3
      subst h3
      intro op hop
      simp at hop
      rcases hop with rfl | rfl
      · exact Or.inl rfl
      · exact Or.inr rfl
    · rw [if_neg ha] at heq
      injection heq with h1 h23
      injection h23 with h2 h3
      subst h3
      intro op hop
      simp at hop
      subst hop
      exact Or.inl rfl

theorem wzkEnsure_ok_last (dir path : String) (d : ZData) (s : ZStore)
    (r : Except WriteErr Unit) (s' : ZStore) (t : List ZkOp)
    (heq : wzkEnsureDirAndCreate dir path d s = (r, s', t))
    (hok : r = .ok ()) :
    ∃ t0, t = t0 ++ [ZkOp.create path] := by
  unfold wzkEnsureDirAndCreate at heq
  rcases hg : zkGetACL dir s with ⟨rg, s1⟩
  rw [hg] at heq
  rcases rg with eg | acl
  · dsimp only at heq
    by_cases he : eg = ZkErr.noNode
    · rw [if_pos he] at heq
      rcases hc : zkCreate dir .nodata (worldACL PermAll) s1 with ⟨rc, s2⟩
      rw [hc] at heq
      rcases rc with ec | uc
      · dsimp only at heq
        by_cases hee : ec = ZkErr.nodeExists
        · rw [if_neg (fun hh => hh hee)] at heq
          rw [wzkCreateData_ops] at heq
          injection heq with h1 h23
          injection h23 with h2 h3
          subst h3
          exact ⟨[.getACL dir, .create dir], rfl⟩
        · rw [if_pos hee] at heq
          injection heq with h1 h23
          subst hok
          exact Except.noConfusion h1
      · dsimp only at heq
        rw [wzkCreateData_ops] at heq
        injection heq with h1 h23
        injection h23 with h2 h3
        subst h3
        exact ⟨[.getACL dir, .create dir], rfl⟩
    · rw [if_neg he] at heq
      injection heq with h1 h23
      subst hok
      exact Except.noConfusion h1
  · dsimp only at heq
    by_cases ha : hasOpenACL acl
    · rw [if_pos ha] at heq
      rw [wzkCreateData_ops] at heq
      injection heq with h1 h23
      injection h23 with h2 h3
      subst h3
      exact ⟨[.getACL dir], rfl⟩
    · rw [if_neg ha] at heq
      injection heq with h1 h23
      subst hok
      exact Except.noConfusion h1

theorem wz_ops_paths (c n : String) (d : ZData) (s : ZStore)
    (r : Except WriteErr Unit) (s' : ZStore) (ops : List ZkOp)
    (heq : writeToZookeeper c n d s = (r, s', ops)) :
    ∀ op ∈ ops, op.path = dirPath c ∨ op.path = dataPath c n := by
  unfold writeToZookeeper at heq
  rcases hdel : zkDelete (dataPath c n) s with ⟨rd, s1⟩
  rw [hdel] at heq
  rcases rd with ed | ud
  · dsimp only at heq
    by_cases he : ed = ZkErr.noNode
    · rw [if_neg (fun hh => hh he)] at heq
      rcases hens : wzkEnsureDirAndCreate (dirPath c) (dataPath c n) d s1
          with ⟨r2, s2, t2⟩
      rw [hens] at heq
      dsimp only at heq
      injection heq with h1 h23
      injection h23 with h2 h3
      subst h3
      intro op hop
      rcases List.mem_cons.mp hop with rfl | hmem
      · exact Or.inr rfl
      · exact wzkEnsure_ops (dirPath c) (dataPath c n) d s1 r2 s2 t2
          hens op hmem
    · rw [if_pos he] at heq
      injection heq with h1 h23
      injection h23 with h2 h3
      subst h3
      intro op hop
      simp at hop
      subst hop
      exact Or.inr rfl
  · dsimp only at heq
    rcases hens : wzkEnsureDirAndCreate (dirPath c) (dataPath c n) d s1
        with ⟨r2, s2, t2⟩
    rw [hens] at heq
    dsimp only at heq
    injection heq with h1 h23
    injection h23 with h2 h3
    subst h3
    intro op hop
    rcases List.mem_cons.mp hop with rfl | hmem
    · exact Or.inr rfl
    · exact wzkEnsure_ops (dirPath c) (dataPath c n) d s1 r2 s2 t2
        hens op hmem

theorem wz_ok_last (c n : String) (d : ZData) (s : ZStore)
    (r : Except WriteErr Unit) (s' : ZStore) (ops : List ZkOp)
    (heq : writeToZookeeper c n d s = (r, s', ops)) (hok : r = .ok ()) :
    ∃ t0, ops = t0 ++ [ZkOp.create (dataPath c n)] := by
  unfold writeToZookeeper at heq
  rcases hdel : zkDelete (dataPath c n) s with ⟨rd, s1⟩
  rw [hdel] at heq
  rcases rd with ed | ud
  · dsimp only at heq
    by_cases he : ed = ZkErr.noNode
    · rw [if_neg (fun hh => hh he)] at heq
      rcases hens : wzkEnsureDirAndCreate (dirPath c) (dataPath c n) d s1
          with ⟨r2, s2, t2⟩
      rw [hens] at heq
      dsimp only at heq
      injection heq with h1 h23
      injection h23 with h2 h3
      subst h3
      obtain ⟨t0, ht0⟩ := wzkEnsure_ok_last (dirPath c) (dataPath c n) d s1
        r2 s2 t2 hens (by rw [h1, hok])
      rw [ht0]
      exact ⟨ZkOp.delete (dataPath c n) :: t0, rfl⟩
    · rw [if_pos he] at heq
      injection heq with h1 h23
      subst hok
      exact Except.noConfusion h1
  · dsimp only at heq
    rcases hens : wzkEnsureDirAndCreate (dirPath c) (dataPath c n) d s1
        with ⟨r2, s2, t2⟩
    rw [hens] at heq
    dsimp only at heq
    injection heq with h1 h23
    injection h23 with h2 h3
    subst h3
    obtain ⟨t0, ht0⟩ := wzkEnsure_ok_last (dirPath c) (dataPath c n) d s1
      r2 s2 t2 hens (by rw [h1, hok])
    rw [ht0]
    exact ⟨ZkOp.delete (dataPath c n) :: t0, rfl⟩

/-- C5: in every live (non-dry-run) run, the partitionmeta node is written
strictly before the brokermetrics node - on a successful run the operation
trace splits into a first segment, touching no brokermetrics path and
ending with the creation of partitionmeta, followed by a segment ending
with the creation of brokermetrics - and if the partitionmeta write fails,
processData returns that error at once and no operation on the
brokermetrics data node is ever attempted. -/
theorem C5_pm_before_bm :
    (∀ (c : String) (bm : brokerStorageFree) (pm : topicPartitionSize)
        (s : ZStore) (e : WriteErr),
      (writeToZookeeper c "partitionmeta" (.pmeta pm) s).1 = .error e →
      (processData false c bm pm s).1 = .error e ∧
      ∀ op ∈ (processData false c bm pm s).2.2,
        op.path ≠ dataPath c "brokermetrics") ∧
    (∀ (c : String) (bm : brokerStorageFree) (pm : topicPartitionSize)
        (s : ZStore)
        (r : Option ((List (String × List ReportEl)) × List (String × Rat))),
      (processData false c bm pm s).1 = .ok r →
      ∃ t1 t2, (processData false c bm pm s).2.2 = t1 ++ t2 ∧
        t1.getLast? = some (.create (dataPath c "partitionmeta")) ∧
        t2.getLast? = some (.create (dataPath c "brokermetrics")) ∧
        ∀ op ∈ t1, op.path ≠ dataPath c "brokermetrics") := by
  constructor
  · intro c bm pm s e herr
    rcases hw : writeToZookeeper c "partitionmeta" (.pmeta pm) s
        with ⟨r1, s1, t1⟩
    rw [hw] at herr
    dsimp only at herr
    subst herr
    unfold processData
    rw [if_neg (by simp)]
    rw [hw]
    dsimp only
    refine ⟨rfl, ?_⟩
    intro op hop
    have hp := wz_ops_paths c "partitionmeta" (.pmeta pm) s _ _ _ hw op hop
    rcases hp with h | h
    · rw [h]; exact dirPath_ne_dataPath c "brokermetrics"
    · rw [h]; exact pm_ne_bm c
  · intro c bm pm s r hok
    unfold processData at hok ⊢
    rw [if_neg (by simp)] at hok ⊢
    rcases hw1 : writeToZookeeper c "partitionmeta" (.pmeta pm) s
        with ⟨r1, s1, t1⟩
    rw [hw1] at hok
    rcases r1 with e1 | u1
    · dsimp only at hok
      exact absurd hok (by simp)
    · dsimp only at hok ⊢
      rcases hw2 : writeToZookeeper c "brokermetrics" (.bmetrics bm) s1
          with ⟨r2, s2, t2⟩
      rw [hw2] at hok
      rcases r2 with e2 | u2
      · dsimp only at hok
        exact absurd hok (by simp)
      · dsimp only
        refine ⟨t1, t2, rfl, ?_, ?_, ?_⟩
        · obtain ⟨t0, ht0⟩ := wz_ok_last c "partitionmeta" (.pmeta pm) s
            _ _ _ hw1 (by cases u1; rfl)
          rw [ht0, List.getLast?_concat]
        · obtain ⟨t0, ht0⟩ := wz_ok_last c "brokermetrics" (.bmetrics bm)
            s1 _ _ _ hw2 (by cases u2; rfl)
          rw [ht0, List.getLast?_concat]
        · intro op hop
          have hp := wz_ops_paths c "partitionmeta" (.pmeta pm) s
            _ _ _ hw1 op hop
          rcases hp with h | h
          · rw [h]; exact dirPath_ne_dataPath c "brokermetrics"
          · rw [h]; exact pm_ne_bm c

/-- C5 witness: fail-fast at a store whose directory carries a non-open
ACL, and the ordered two-segment trace of a successful run from an empty
store. -/
theorem C5_witness :
    ((processData false "" [] []
        (fun p => if p = "/topicmappr" then
            some ⟨.nodata, [⟨1, "world", "anyone"⟩]⟩ else none)).1 =
      .error (.wrongACL "/topicmappr" [⟨1, "world", "anyone"⟩])) ∧
    (∃ t1 t2,
      (processData false "" [("1", ⟨5⟩)] [("t1", [("0", ⟨100⟩)])]
          (fun _ => none)).2.2 = t1 ++ t2 ∧
      t1.getLast? = some (.create (dataPath "" "partitionmeta")) ∧
      t2.getLast? = some (.create (dataPath "" "brokermetrics"))) := by
  constructor
  · exact (C5_pm_before_bm.1 "" [] []
      (fun p => if p = "/topicmappr" then
          some ⟨.nodata, [⟨1, "world", "anyone"⟩]⟩ else none)
      (.wrongACL "/topicmappr" [⟨1, "world", "anyone"⟩]) (by decide)).1
  · obtain ⟨t1, t2, h1, h2, h3, h4⟩ := C5_pm_before_bm.2 ""
      [("1", ⟨5⟩)] [("t1", [("0", ⟨100⟩)])] (fun _ => none) none
      (by decide)
    exact ⟨t1, t2, h1, h2, h3⟩

/-! ### Oracle embedding of writeToZookeeper -/

/-- Prescribed results for the four store calls writeToZookeeper can make,
used to state its behavior under arbitrary store responses, including
races and failures a sequential deterministic store cannot produce. -/
structure ZkOps where
  deleteRes : Except ZkErr Unit
  getACLRes : Except ZkErr (List ACL)
  createDirRes : Except ZkErr Unit
  createDataRes : Except ZkErr Unit

/-- The four call sites of writeToZookeeper, in source order. -/
inductive ZkCall where
  | callDelete
  | callGetACL
  | callCreateDir
  | callCreateData
deriving DecidableEq, Repr

/-- main.go lines 246-252 with the store call replaced by the oracle's
prescribed result: the final data-node creation. -/
def wzkWithData (o : ZkOps) (path : String) :
    Except WriteErr Unit × List ZkCall :=
  match o.createDataRes with
  | .error e => (.error (.unableToCreatePath path e), [.callCreateData])
  | .ok _ => (.ok (), [.callCreateData])

/-- main.go lines 220-244 with the store calls replaced by the oracle's
prescribed results: directory ACL fetch, directory creation on ErrNoNode
(ErrNodeExists benign), exact open-ACL check otherwise. -/
def wzkWithAfterDelete (o : ZkOps) (dir path : String) :
    Except WriteErr Unit × List ZkCall :=
  match o.getACLRes with
  | .error e =>
    if e = ZkErr.noNode then
      match o.createDirRes with
      | .error e2 =>
        if e2 ≠ ZkErr.nodeExists then
          (.error (.unableToCreateNode dir e2),
            [.callDelete, .callGetACL, .callCreateDir])
        else
          match wzkWithData o path with
          | (r, t) => (r, [.callDelete, .callGetACL, .callCreateDir] ++ t)
      | .ok _ =>
        match wzkWithData o path with
        | (r, t) => (r, [.callDelete, .callGetACL, .callCreateDir] ++ t)
    else (.error (.unableToGetACL dir e), [.callDelete, .callGetACL])
  | .ok acl =>
    if hasOpenACL acl then
      match wzkWithData o path with
      | (r, t) => (r, [.callDelete, .callGetACL] ++ t)
    else (.error (.wrongACL dir acl), [.callDelete, .callGetACL])

/-- main.go lines 200-255 again, with the four store calls replaced by the
prescribed results of an oracle: returns the function result and the list
of calls actually made, in order. -/
def writeToZookeeperWith (o : ZkOps) (dir path : String) :
    Except WriteErr Unit × List ZkCall :=
  match o.deleteRes with
  | .error e =>
    if e ≠ ZkErr.noNode then
      (.error (.unableToDelete path e), [.callDelete])
    else wzkWithAfterDelete o dir path
  | .ok _ => wzkWithAfterDelete o dir path

theorem wzkWithData_calls (o : ZkOps) (path : String) :
    (wzkWithData o path).2 = [ZkCall.callCreateData] := by
  unfold wzkWithData
  rcases h : o.createDataRes with e | u <;> simp [h]

/-- C4: for every live publish, under any store responses whose delete
step succeeds or finds no node: when the directory exists, the data-node
create is attempted exactly when the directory's ACL list contains an
entry equal to the open ACL, and otherwise the publish aborts with the
descriptive wrong-ACL error, attempting neither creation; when the
directory does not exist, its creation is attempted with a concurrent
"already exists" treated as benign (the data-node create still follows),
while any other creation failure aborts without attempting the data-node
create.  Moreover the directory node is never rewritten: on an
ACL-mismatch abort the deterministic store still holds the directory node
unchanged, ACL included. -/
theorem C4_acl_gate :
    (∀ (o : ZkOps) (dir path : String),
      (o.deleteRes = .ok () ∨ o.deleteRes = .error .noNode) →
      (∀ acl, o.getACLRes = .ok acl →
        (hasOpenACL acl = true →
          ZkCall.callCreateData ∈ (writeToZookeeperWith o dir path).2) ∧
        (hasOpenACL acl = false →
          (writeToZookeeperWith o dir path).1 =
            .error (.wrongACL dir acl) ∧
          ZkCall.callCreateData ∉ (writeToZookeeperWith o dir path).2 ∧
          ZkCall.callCreateDir ∉ (writeToZookeeperWith o dir path).2)) ∧
      (o.getACLRes = .error .noNode →
        ZkCall.callCreateDir ∈ (writeToZookeeperWith o dir path).2 ∧
        ((o.createDirRes = .ok () ∨ o.createDirRes = .error .nodeExists) →
          ZkCall.callCreateData ∈ (writeToZookeeperWith o dir path).2) ∧
        (∀ e2, o.createDirRes = .error e2 → e2 ≠ .nodeExists →
          (writeToZookeeperWith o dir path).1 =
            .error (.unableToCreateNode dir e2) ∧
          ZkCall.callCreateData ∉ (writeToZookeeperWith o dir path).2))) ∧
    (∀ (c n : String) (d : ZData) (s : ZStore) (dn : ZNode),
      s (dirPath c) = some dn → hasOpenACL dn.acl = false →
      (writeToZookeeper c n d s).2.1 (dirPath c) = some dn) := by
  constructor
  · intro o dir path hdel
    have hred : writeToZookeeperWith o dir path =
        wzkWithAfterDelete o dir path := by
      unfold writeToZookeeperWith
      rcases hdel with h | h
      · rw [h]
      · rw [h]
        dsimp only
        rw [if_neg (fun hh => hh rfl)]
    rw [hred]
    constructor
    · intro acl hacl
      unfold wzkWithAfterDelete
      rw [hacl]
      dsimp only
      constructor
      · intro hop
        rw [if_pos hop]
        rcases hd : wzkWithData o path with ⟨r3, t3⟩
        have ht3 : t3 = [ZkCall.callCreateData] := by
          have := wzkWithData_calls o path
          rw [hd] at this
          exact this
        subst ht3
        simp
      · intro hop
        rw [if_neg (by rw [hop]; exact fun hh => Bool.noConfusion hh)]
        refine ⟨rfl, by simp, by simp⟩
    · intro hacl
      unfold wzkWithAfterDelete
      rw [hacl]
      dsimp only
      rw [if_pos rfl]
      refine ⟨?_, ?_, ?_⟩
      · rcases hc : o.createDirRes with e2 | u2
        · dsimp only
          by_cases hee : e2 = ZkErr.nodeExists
          · rw [if_neg (fun hh => hh hee)]
            simp
          · rw [if_pos hee]
            simp
        · dsimp only
          simp
      · intro hbenign
        rcases hbenign with h | h
        · rw [h]
          dsimp only
          rw [wzkWithData_calls]
          simp
        · rw [h]
          dsimp only
          rw [if_neg (fun hh => hh rfl)]
          rw [wzkWithData_calls]
          simp
      · intro e2 hc hee
        rw [hc]
        dsimp only
        rw [if_pos hee]
        refine ⟨rfl, by simp⟩
  · intro c n d s dn hdir hacl
    rw [wz_badACL c n d s dn hdir hacl]
    dsimp only
    rw [if_neg (dirPath_ne_dataPath c n)]
    exact hdir

/-- C4 witness: the four oracle scenarios (open ACL, non-open ACL, benign
directory-creation race, fatal directory-creation failure) and the
directory-preservation fact at a concrete store. -/
theorem C4_witness :
    (ZkCall.callCreateData ∈ (writeToZookeeperWith
      ⟨.ok (), .ok (worldACL PermAll), .ok (), .ok ()⟩
      "/topicmappr" "/topicmappr/partitionmeta").2) ∧
    ((writeToZookeeperWith
        ⟨.ok (), .ok [⟨1, "world", "anyone"⟩], .ok (), .ok ()⟩
        "/topicmappr" "/topicmappr/partitionmeta").1 =
      .error (.wrongACL "/topicmappr" [⟨1, "world", "anyone"⟩])) ∧
    (ZkCall.callCreateData ∈ (writeToZookeeperWith
      ⟨.ok (), .error .noNode, .error .nodeExists, .ok ()⟩
      "/topicmappr" "/topicmappr/partitionmeta").2) ∧
    ((writeToZookeeperWith
        ⟨.ok (), .error .noNode, .error (.other "boom"), .ok ()⟩
        "/topicmappr" "/topicmappr/partitionmeta").1 =
      .error (.unableToCreateNode "/topicmappr" (.other "boom"))) ∧
    ((writeToZookeeper "" "partitionmeta" (.pmeta [])
        (fun p => if p = "/topicmappr" then
            some ⟨.nodata, [⟨5, "world", "anyone"⟩]⟩ else none)).2.1
      "/topicmappr" = some ⟨.nodata, [⟨5, "world", "anyone"⟩]⟩) := by
  refine ⟨?_, ?_, ?_, ?_, ?_⟩
  · exact ((C4_acl_gate.1 ⟨.ok (), .ok (worldACL PermAll), .ok (), .ok ()⟩
      "/topicmappr" "/topicmappr/partitionmeta" (Or.inl rfl)).1
      (worldACL PermAll) rfl).1 (by decide)
  · exact (((C4_acl_gate.1 ⟨.ok (), .ok [⟨1, "world", "anyone"⟩], .ok (),
      .ok ()⟩ "/topicmappr" "/topicmappr/partitionmeta" (Or.inl rfl)).1
      [⟨1, "world", "anyone"⟩] rfl).2 (by decide)).1
  · exact ((C4_acl_gate.1 ⟨.ok (), .error .noNode, .error .nodeExists,
      .ok ()⟩ "/topicmappr" "/topicmappr/partitionmeta" (Or.inl rfl)).2
      rfl).2.1 (Or.inr rfl)
  · exact (((C4_acl_gate.1 ⟨.ok (), .error .noNode, .error (.other "boom"),
      .ok ()⟩ "/topicmappr" "/topicmappr/partitionmeta" (Or.inl rfl)).2
      rfl).2.2 (.other "boom") rfl (by simp)).1
  · exact C4_acl_gate.2 "" "partitionmeta" (.pmeta [])
      (fun p => if p = "/topicmappr" then
          some ⟨.nodata, [⟨5, "world", "anyone"⟩]⟩ else none)
      ⟨.nodata, [⟨5, "world", "anyone"⟩]⟩ (by decide) (by decide)

/-! ### Sortedness and determinism of the dry-run report -/

theorem insertEl_perm (e : ReportEl) (l : List ReportEl) :
    (insertEl e l).Perm (e :: l) := by
  induction l with
  | nil => exact List.Perm.refl _
  | cons a l ih =>
    unfold insertEl
    by_cases h : e.Partition < a.Partition
    · rw [if_pos h]
    · rw [if_neg h]
      exact (ih.cons a).trans (List.Perm.swap e a l)

theorem insertEl_sorted (e : ReportEl) (l : List ReportEl)
    (h : l.Pairwise (fun a b => a.Partition ≤ b.Partition)) :
    (insertEl e l).Pairwise (fun a b => a.Partition ≤ b.Partition) := by
  induction l with
  | nil => simp [insertEl]
  | cons a l ih =>
    rcases List.pairwise_cons.mp h with ⟨ha, hl⟩
    unfold insertEl
    by_cases hlt : e.Partition < a.Partition
    · rw [if_pos hlt]
      refine List.pairwise_cons.mpr ⟨?_, h⟩
      intro b hb
      rcases List.mem_cons.mp hb with rfl | hb
      · exact le_of_lt hlt
      · exact le_trans (le_of_lt hlt) (ha b hb)
    · rw [if_neg hlt]
      refine List.pairwise_cons.mpr ⟨?_, ih hl⟩
      intro b hb
      have hb' := (insertEl_perm e l).mem_iff.mp hb
      rcases List.mem_cons.mp hb' with rfl | hb'
      · exact le_of_not_lt hlt
      · exact ha b hb'

theorem sortEls_perm (l : List ReportEl) : (sortEls l).Perm l := by
  induction l with
  | nil => exact List.Perm.refl _
  | cons a l ih =>
    unfold sortEls at ih ⊢
    exact (insertEl_perm a _).trans (ih.cons a)

theorem sortEls_sorted (l : List ReportEl) :
    (sortEls l).Pairwise (fun a b => a.Partition ≤ b.Partition) := by
  induction l with
  | nil => simp [sortEls]
  | cons a l ih =>
    unfold sortEls at ih ⊢
    exact insertEl_sorted a _ ih

/-- Two sorted lists that are permutations of each other and whose key
projections are duplicate-free are equal. -/
theorem sorted_nodupkeys_unique :
    ∀ (l1 l2 : List ReportEl), l1.Perm l2 →
      l1.Pairwise (fun a b => a.Partition ≤ b.Partition) →
      l2.Pairwise (fun a b => a.Partition ≤ b.Partition) →
      (l1.map ReportEl.Partition).Nodup → l1 = l2 := by
  intro l1
  induction l1 with
  | nil =>
    intro l2 hp _ _ _
    cases l2 with
    | nil => rfl
    | cons b t2 => exact absurd hp.length_eq (by simp)
  | cons a t1 ih =>
    intro l2 hp h1 h2 hnd
    cases l2 with
    | nil => exact absurd hp.length_eq (by simp)
    | cons b t2 =>
      have hnd' : (a.Partition :: t1.map ReportEl.Partition).Nodup := by
        simpa using hnd
      have hab : a = b := by
        by_contra hne
        have haa : a ∈ b :: t2 := hp.mem_iff.mp (List.mem_cons_self a t1)
        have hbb : b ∈ a :: t1 := hp.mem_iff.mpr (List.mem_cons_self b t2)
        rcases List.mem_cons.mp haa with h | hat2
        · exact hne h
        rcases List.mem_cons.mp hbb with h | hbt1
        · exact hne h.symm
        have hle1 : a.Partition ≤ b.Partition :=
          (List.pairwise_cons.mp h1).1 b hbt1
        have hle2 : b.Partition ≤ a.Partition :=
          (List.pairwise_cons.mp h2).1 a hat2
        have heq : a.Partition = b.Partition := le_antisymm hle1 hle2
        have hmem : a.Partition ∈ t1.map ReportEl.Partition := by
          rw [heq]
          exact List.mem_map.mpr ⟨b, hbt1, rfl⟩
        exact (List.nodup_cons.mp hnd').1 hmem
      subst hab
      have ht : t1 = t2 := ih t2 hp.cons_inv
        (List.pairwise_cons.mp h1).2 (List.pairwise_cons.mp h2).2
        (List.nodup_cons.mp hnd').2
      rw [ht]

/-- C9 (amended): a dry-run publish performs no store operation and leaves
the store untouched, rendering the report from the same two maps; in the
report, every topic's partitions are listed in ascending numeric order of
the parsed partition number; and the listing of a topic is the same for
every permutation of its entries provided its partition keys parse to
pairwise distinct integers (keys that parse alike - e.g. "1" and "01", or
any two non-numeric keys, which all parse to 0 - may be listed in either
order, so full permutation-independence does not hold in general). -/
theorem C9_dry_run (c : String) (bm : brokerStorageFree)
    (pm : topicPartitionSize) (s : ZStore) :
    (processData true c bm pm s =
      (.ok (some (dryRunReport pm bm)), s, [])) ∧
    (∀ t l, (t, l) ∈ (dryRunReport pm bm).1 →
      l.Pairwise (fun a b => a.Partition ≤ b.Partition)) ∧
    (∀ ps qs : partitionSize, ps.Perm qs →
      (ps.map (fun pv => goAtoi pv.1)).Nodup →
      sortEls (reportEntries ps) = sortEls (reportEntries qs)) := by
  refine ⟨rfl, ?_, ?_⟩
  · intro t l hmem
    simp only [dryRunReport, List.mem_map] at hmem
    obtain ⟨tv, htv, heq⟩ := hmem
    have hl : l = sortEls (reportEntries tv.2) := by
      have h2 := congrArg Prod.snd heq
      simpa using h2.symm
    rw [hl]
    exact sortEls_sorted _
  · intro ps qs hperm hnd
    have hkeys : (reportEntries ps).map ReportEl.Partition =
        ps.map (fun pv => goAtoi pv.1) := by
      unfold reportEntries
      rw [List.map_map]
      rfl
    have h1 := (sortEls_perm (reportEntries ps)).map ReportEl.Partition
    rw [hkeys] at h1
    refine sorted_nodupkeys_unique _ _ ?_ (sortEls_sorted _)
      (sortEls_sorted _) ?_
    · exact (sortEls_perm _).trans
        ((hperm.map _).trans (sortEls_perm _).symm)
    · exact h1.symm.nodup hnd

/-- C9 counterexample: the same partition map presented in two sample
orders (a permutation) renders differently, because the keys "1" and "01"
parse to the same number 1 and their two entries, with sizes 5 and 7, tie
under the sort: the rendered partition listing of topic t1 differs between
the two permutations. -/
theorem C9_counterexample :
    ([⟨[("topic", "t1"), ("partition", "1")], 5⟩,
      ⟨[("topic", "t1"), ("partition", "01")], 7⟩] : List Sample).Perm
      [⟨[("topic", "t1"), ("partition", "01")], 7⟩,
       ⟨[("topic", "t1"), ("partition", "1")], 5⟩] ∧
    dryRunReport (getPartitionSizes (.vector
        [⟨[("topic", "t1"), ("partition", "1")], 5⟩,
         ⟨[("topic", "t1"), ("partition", "01")], 7⟩])) [] ≠
      dryRunReport (getPartitionSizes (.vector
        [⟨[("topic", "t1"), ("partition", "01")], 7⟩,
         ⟨[("topic", "t1"), ("partition", "1")], 5⟩])) [] := by
  constructor
  · decide
  · decide

/-- C9 witness: the amended claim at concrete inputs - no store operation
in dry run, ascending order in the rendered report, and a
permutation-independent listing for distinct parsed keys. -/
theorem C9_witness :
    ((processData true "" [("1", ⟨5⟩)]
        [("t1", [("10", ⟨2⟩), ("2", ⟨1⟩)])] (fun _ => none)).2.2 = []) ∧
    List.Pairwise (fun a b => a.Partition ≤ b.Partition)
      (sortEls (reportEntries [("10", ⟨2⟩), ("2", ⟨1⟩)])) ∧
    sortEls (reportEntries [("1", ⟨5⟩), ("2", ⟨7⟩)]) =
      sortEls (reportEntries [("2", ⟨7⟩), ("1", ⟨5⟩)]) := by
  have h := C9_dry_run "" [("1", ⟨5⟩)]
    [("t1", [("10", ⟨2⟩), ("2", ⟨1⟩)])] (fun _ => none)
  refine ⟨by rw [h.1], ?_, ?_⟩
  · exact h.2.1 "t1" (sortEls (reportEntries [("10", ⟨2⟩), ("2", ⟨1⟩)]))
      (by decide)
  · exact h.2.2 [("1", ⟨5⟩), ("2", ⟨7⟩)] [("2", ⟨7⟩), ("1", ⟨5⟩)]
      (by decide) (by decide)
